import Mathlib

/-!
Shallow embedding of the VeggiTrade trading/portfolio core (src/App.tsx,
src/types.ts, src/constants.ts, src/components/TradePanel.tsx).

Monetary amounts and prices are modelled as rationals (exact arithmetic),
quantities as rationals as in the source (JS numbers; the UI parses integers).
External randomness (Math.random draws), wall-clock times and generated ids
are passed in as explicit parameters.
-/

namespace VeggiTrade

/-- `'BUY' | 'SELL'` from src/types.ts. -/
inductive Side where
  | BUY
  | SELL
deriving Repr, DecidableEq

/-- `'MARKET' | 'LIMIT'` from src/types.ts. -/
inductive OrderKind where
  | MARKET
  | LIMIT
deriving Repr, DecidableEq

/-- One entry of `Asset.history`: `{ time, price, volume }`. -/
structure PricePoint where
  time : ℕ
  price : ℚ
  volume : ℕ
deriving Repr, DecidableEq

/-- `Asset` from src/types.ts (icon and initial_price omitted: never read by
the core after initialisation). -/
structure Asset where
  id : String
  name : String
  current_price : ℚ
  history : List PricePoint
  change24h : ℚ
deriving Repr, DecidableEq

/-- `Holding` from src/types.ts. -/
structure Holding where
  quantity : ℚ
  avgCost : ℚ
deriving Repr, DecidableEq

/-- `Transaction` from src/types.ts. -/
structure Transaction where
  id : ℕ
  type : Side
  assetId : String
  assetName : String
  quantity : ℚ
  price : ℚ
  timestamp : ℕ
  orderType : OrderKind
deriving Repr, DecidableEq

/-- `LimitOrder` from src/types.ts. -/
structure LimitOrder where
  id : ℕ
  assetId : String
  type : Side
  quantity : ℚ
  targetPrice : ℚ
  timestamp : ℕ
deriving Repr, DecidableEq

/-- `Portfolio` from src/types.ts; `holdings : Record<string, Holding>` is an
insertion-ordered key/value list, as a JS object behaves. -/
structure Portfolio where
  cashBalance : ℚ
  holdings : List (String × Holding)
  transactions : List Transaction
  openOrders : List LimitOrder
deriving Repr, DecidableEq

/-- `portfolio.holdings[k] || { quantity: 0, avgCost: 0 }`. -/
def getHolding (hs : List (String × Holding)) (k : String) : Holding :=
  match hs.find? (fun p => p.1 = k) with
  | some p => p.2
  | none => ⟨0, 0⟩

/-- `portfolio.holdings[k] = v` on a JS object: replace the value at an
existing key in place, else append the new key. -/
def setHolding : List (String × Holding) → String → Holding → List (String × Holding)
  | [], k, v => [(k, v)]
  | p :: rest, k, v => if p.1 = k then (k, v) :: rest else p :: setHolding rest k v

/-- `HISTORY_POINTS` from src/constants.ts. -/
def HISTORY_POINTS : ℕ := 50

/-- `INITIAL_CASH` from src/constants.ts. -/
def INITIAL_CASH : ℚ := 10000

/-- The `volatility` constant of the simulation effect (src/App.tsx line 54). -/
def volatility : ℚ := 2/100

/-- The new history point one simulation tick appends to an asset
(src/App.tsx lines 54-63): `rand` is the `Math.random()` draw in `[0,1)`,
`newVolume` the synthetic volume, `now` the tick's timestamp.
`change = rand * (volatility*2) - volatility`,
`newPrice = max(0.01, current_price * (1 + change))`. -/
def tickPoint (rand : ℚ) (newVolume : ℕ) (now : ℕ) (a : Asset) : PricePoint :=
  let change := rand * (volatility * 2) - volatility
  let raw := a.current_price * (1 + change)
  { time := now
    price := if 1/100 ≤ raw then raw else 1/100
    volume := newVolume }

/-- The per-asset random-walk step of the simulation effect
(src/App.tsx lines 52-76): append the new point, evict the oldest
(`history.slice(1)` then push), recompute `change24h` from the oldest
retained point. -/
def advanceAsset (rand : ℚ) (newVolume : ℕ) (now : ℕ) (a : Asset) : Asset :=
  let newHistoryPoint := tickPoint rand newVolume now a
  let newPrice := newHistoryPoint.price
  let newHistory := a.history.drop 1 ++ [newHistoryPoint]
  let startPrice := (newHistory.headD ⟨0, 0, 0⟩).price
  let priceChange := ((newPrice - startPrice) / startPrice) * 100
  { a with
    current_price := newPrice
    history := newHistory
    change24h := priceChange }

/-- The state threaded through the `openOrders.forEach` matching loop of the
simulation effect (src/App.tsx lines 82-139): the portfolio being mutated,
the accumulated `remainingOrders`, the `portfolioChanged` flag, and the next
fresh transaction id (`generateId`). -/
structure MatchState where
  portfolio : Portfolio
  remaining : List LimitOrder
  portfolioChanged : Bool
  nextId : ℕ
deriving Repr, DecidableEq

/-- One iteration of the matching loop body (src/App.tsx lines 86-139):
look up the order's asset among the tick's new assets; a BUY executes when
`current_price <= targetPrice` (holding joined at weighted average, cash
untouched — it was escrowed at placement), a SELL executes when
`current_price >= targetPrice` (cash credited `quantity * targetPrice`,
holdings untouched); an executed order records one LIMIT transaction and is
not pushed to `remainingOrders`; otherwise the order is pushed there. -/
def matchOrder (assets : List Asset) (now : ℕ) (st : MatchState) (order : LimitOrder) :
    MatchState :=
  match assets.find? (fun a => a.id = order.assetId) with
  | none => { st with remaining := st.remaining ++ [order] }
  | some asset =>
    if order.type = Side.BUY ∧ asset.current_price ≤ order.targetPrice then
      let cost := order.quantity * order.targetPrice
      let currentHolding := getHolding st.portfolio.holdings asset.id
      let oldTotalVal := currentHolding.quantity * currentHolding.avgCost
      let newTotalVal := oldTotalVal + cost
      let newQty := currentHolding.quantity + order.quantity
      let p1 := { st.portfolio with
        holdings := setHolding st.portfolio.holdings asset.id
          ⟨newQty, newTotalVal / newQty⟩ }
      { portfolio := { p1 with
          transactions := p1.transactions ++
            [⟨st.nextId, order.type, asset.id, asset.name, order.quantity,
              order.targetPrice, now, OrderKind.LIMIT⟩] }
        remaining := st.remaining
        portfolioChanged := true
        nextId := st.nextId + 1 }
    else if order.type = Side.SELL ∧ order.targetPrice ≤ asset.current_price then
      let revenue := order.quantity * order.targetPrice
      let p1 := { st.portfolio with
        cashBalance := st.portfolio.cashBalance + revenue }
      { portfolio := { p1 with
          transactions := p1.transactions ++
            [⟨st.nextId, order.type, asset.id, asset.name, order.quantity,
              order.targetPrice, now, OrderKind.LIMIT⟩] }
        remaining := st.remaining
        portfolioChanged := true
        nextId := st.nextId + 1 }
    else
      { st with remaining := st.remaining ++ [order] }

/-- The whole matching pass of one simulation tick (src/App.tsx lines 78-148):
runs only when a user is present and there are open orders; when some order
executed (`portfolioChanged`), the portfolio with `openOrders` replaced by
`remainingOrders` is committed and persisted (`Bool` = a persistence write was
issued), else the portfolio is left untouched and nothing is written. -/
def matchTick (userPresent : Bool) (assets : List Asset) (now : ℕ) (nextId : ℕ)
    (p : Portfolio) : Portfolio × Bool :=
  if userPresent = true ∧ p.openOrders ≠ [] then
    let st := p.openOrders.foldl (matchOrder assets now) ⟨p, [], false, nextId⟩
    if st.portfolioChanged then
      ({ st.portfolio with openOrders := st.remaining }, true)
    else
      (p, false)
  else
    (p, false)

/-- One full simulation tick (the `setInterval` body, src/App.tsx lines 50-151):
advance every asset's price (the per-asset `Math.random()` draws and volumes
supplied as functions of the asset id), then run the matching pass against the
freshly updated prices. Returns (new assets, new portfolio, write issued). -/
def simTick (userPresent : Bool) (rand : String → ℚ) (vol : String → ℕ) (now : ℕ)
    (nextId : ℕ) (assets : List Asset) (p : Portfolio) :
    List Asset × Portfolio × Bool :=
  let newAssets := assets.map (fun a => advanceAsset (rand a.id) (vol a.id) now a)
  let res := matchTick userPresent newAssets now nextId p
  (newAssets, res.1, res.2)

/-- The validation errors of §7 of the design surfaced by `handleTrade` /
`handleSubmit` (notifications "Insufficient funds", "Insufficient holdings",
"Enter a valid quantity", "Enter a valid price"). -/
inductive TradeError where
  | InsufficientFunds
  | InsufficientHoldings
  | InvalidQuantity
  | InvalidPrice
deriving Repr, DecidableEq

/-- `const price = orderType === 'LIMIT' ? (limitPrice || 0) : asset.current_price`
(src/App.tsx line 190). -/
def tradePrice (orderType : OrderKind) (currentPrice : ℚ) (limitPrice : Option ℚ) : ℚ :=
  if orderType = OrderKind.LIMIT then limitPrice.getD 0 else currentPrice

/-- `handleTrade` (src/App.tsx lines 180-280), restricted to its ledger
transition: BUY first checks funds against `cost = price * quantity`, then
debits cash (escrow for LIMIT), then either joins the holding at the weighted
average (MARKET) or appends an open order (LIMIT); SELL first checks the
holding, then decrements it (escrow for LIMIT), then either credits cash
(MARKET) or appends an open order (LIMIT); a MARKET trade finally records one
MARKET transaction. A failed check returns the error with nothing applied. -/
def handleTrade (p : Portfolio) (assetId : String) (assetName : String)
    (currentPrice : ℚ) (type : Side) (quantity : ℚ) (orderType : OrderKind)
    (limitPrice : Option ℚ) (freshId : ℕ) (now : ℕ) : Except TradeError Portfolio :=
  let price := tradePrice orderType currentPrice limitPrice
  let cost := price * quantity
  let currentHolding := getHolding p.holdings assetId
  let afterSide : Except TradeError Portfolio :=
    match type with
    | Side.BUY =>
      if p.cashBalance < cost then
        Except.error TradeError.InsufficientFunds
      else
        let p1 := { p with cashBalance := p.cashBalance - cost }
        match orderType with
        | OrderKind.MARKET =>
          let oldTotalValue := currentHolding.quantity * currentHolding.avgCost
          let newTotalValue := oldTotalValue + cost
          let newQuantity := currentHolding.quantity + quantity
          Except.ok { p1 with
            holdings := setHolding p1.holdings assetId
              ⟨newQuantity, newTotalValue / newQuantity⟩ }
        | OrderKind.LIMIT =>
          Except.ok { p1 with
            openOrders := p1.openOrders ++
              [⟨freshId, assetId, Side.BUY, quantity, price, now⟩] }
    | Side.SELL =>
      if currentHolding.quantity < quantity then
        Except.error TradeError.InsufficientHoldings
      else
        let p1 := { p with
          holdings := setHolding p.holdings assetId
            ({ currentHolding with quantity := currentHolding.quantity - quantity }) }
        match orderType with
        | OrderKind.MARKET =>
          Except.ok { p1 with cashBalance := p1.cashBalance + cost }
        | OrderKind.LIMIT =>
          Except.ok { p1 with
            openOrders := p1.openOrders ++
              [⟨freshId, assetId, Side.SELL, quantity, price, now⟩] }
  match afterSide with
  | Except.error e => Except.error e
  | Except.ok p2 =>
    if orderType = OrderKind.MARKET then
      Except.ok { p2 with
        transactions := p2.transactions ++
          [⟨freshId, type, assetId, assetName, quantity, price, now,
            OrderKind.MARKET⟩] }
    else
      Except.ok p2

/-- `openOrders.findIndex(o => o.id === orderId)` resolved to the order found
(first occurrence). -/
def findOrder : List LimitOrder → ℕ → Option LimitOrder
  | [], _ => none
  | o :: rest, oid => if o.id = oid then some o else findOrder rest oid

/-- `openOrders.splice(orderIndex, 1)`: remove the first order with the id. -/
def removeOrder : List LimitOrder → ℕ → List LimitOrder
  | [], _ => []
  | o :: rest, oid => if o.id = oid then rest else o :: removeOrder rest oid

/-- `handleCancelOrder` (src/App.tsx lines 282-307): a missing order is a
no-op; a BUY order refunds `quantity * targetPrice` to cash, a SELL order
refunds `quantity` units to the holding; the order is removed. -/
def handleCancelOrder (p : Portfolio) (orderId : ℕ) : Portfolio :=
  match findOrder p.openOrders orderId with
  | none => p
  | some order =>
    let p1 :=
      if order.type = Side.BUY then
        { p with cashBalance := p.cashBalance + order.quantity * order.targetPrice }
      else
        let holding := getHolding p.holdings order.assetId
        let restored := { holding with quantity := holding.quantity + order.quantity }
        { p with holdings := setHolding p.holdings order.assetId restored }
    { p1 with openOrders := removeOrder p1.openOrders orderId }

/-- `handleSubmit` of src/components/TradePanel.tsx (lines 90-115) composed
with `handleTrade`: reject `numericQty <= 0`, then a LIMIT price `<= 0`, then
a BUY that cannot be afforded (`canBuy`), then a SELL beyond the holding
(`canSell`); otherwise run the trade. The quantity is the `parseInt` result,
an integer. -/
def submitTrade (p : Portfolio) (assetId : String) (assetName : String)
    (currentPrice : ℚ) (mode : Side) (numericQty : ℤ) (orderType : OrderKind)
    (numericLimitPrice : ℚ) (freshId : ℕ) (now : ℕ) : Except TradeError Portfolio :=
  if numericQty ≤ 0 then
    Except.error TradeError.InvalidQuantity
  else if orderType = OrderKind.LIMIT ∧ numericLimitPrice ≤ 0 then
    Except.error TradeError.InvalidPrice
  else
    let executionPrice :=
      if orderType = OrderKind.MARKET then currentPrice else numericLimitPrice
    let totalCost := (numericQty : ℚ) * executionPrice
    let holding := getHolding p.holdings assetId
    if mode = Side.BUY ∧ p.cashBalance < totalCost then
      Except.error TradeError.InsufficientFunds
    else if mode = Side.SELL ∧ holding.quantity < (numericQty : ℚ) then
      Except.error TradeError.InsufficientHoldings
    else
      handleTrade p assetId assetName currentPrice mode (numericQty : ℚ) orderType
        (if orderType = OrderKind.LIMIT then some numericLimitPrice else none)
        freshId now

/-- Whether an open order meets its execution condition against a price
snapshot: its asset exists and the price has crossed its target
(BUY: `current_price <= targetPrice`; SELL: `current_price >= targetPrice`). -/
def shouldExecute (assets : List Asset) (o : LimitOrder) : Bool :=
  match assets.find? (fun a => a.id = o.assetId) with
  | none => false
  | some a =>
    decide ((o.type = Side.BUY ∧ a.current_price ≤ o.targetPrice) ∨
      (o.type = Side.SELL ∧ o.targetPrice ≤ a.current_price))

/-- The history an asset starts with (src/App.tsx lines 21-25):
`Array(HISTORY_POINTS).fill(0).map((_, i) => ({time: ..., price:
a.initial_price, volume: ...}))` — one point per index, all at the initial
price, with externally drawn times and volumes. -/
def initialHistory (times : ℕ → ℕ) (vols : ℕ → ℕ) (initialPrice : ℚ) :
    List PricePoint :=
  (List.range HISTORY_POINTS).map (fun i => ⟨times i, initialPrice, vols i⟩)

/-- Iterate the per-asset simulation step over successive tick inputs
(random draw, synthetic volume, timestamp). -/
def assetTicks : List (ℚ × ℕ × ℕ) → Asset → Asset
  | [], a => a
  | (r, v, t) :: rest, a => assetTicks rest (advanceAsset r v t a)

/-- The history points the successive ticks of `assetTicks` append, in tick
order. -/
def appendedPoints : List (ℚ × ℕ × ℕ) → Asset → List PricePoint
  | [], _ => []
  | (r, v, t) :: rest, a => tickPoint r v t a :: appendedPoints rest (advanceAsset r v t a)

/-- A ledger-mutating operation of the core: a user trade request
(market trade or limit-order placement, `handleTrade`), an order cancellation
(`handleCancelOrder`), or one matching pass over a tick's price snapshot
(`matchTick`, which settles limit-order fills). -/
inductive Op where
  | trade (assetId assetName : String) (currentPrice : ℚ) (type : Side)
      (quantity : ℚ) (orderType : OrderKind) (limitPrice : Option ℚ)
      (freshId now : ℕ)
  | cancel (orderId : ℕ)
  | tick (assets : List Asset) (now nextId : ℕ)

/-- Apply one operation to the ledger; a rejected trade request leaves the
ledger unchanged (the error is surfaced to the caller). -/
def applyOp (p : Portfolio) : Op → Portfolio
  | Op.trade assetId assetName currentPrice type quantity orderType limitPrice
      freshId now =>
    match handleTrade p assetId assetName currentPrice type quantity orderType
        limitPrice freshId now with
    | Except.ok p2 => p2
    | Except.error _ => p
  | Op.cancel orderId => handleCancelOrder p orderId
  | Op.tick assets now nextId => (matchTick true assets now nextId p).1

/-- The requests reachable through the UI boundary: non-negative quantity and
prices (the trade panel rejects a non-positive quantity or limit price, and
tick prices are floored at 0.01). -/
def validOp : Op → Prop
  | Op.trade _ _ currentPrice _ quantity _ limitPrice _ _ =>
    0 ≤ quantity ∧ 0 ≤ currentPrice ∧ ∀ v, limitPrice = some v → 0 ≤ v
  | Op.cancel _ => True
  | Op.tick _ _ _ => True

/-- Every open order carries a non-negative quantity and target price. -/
def ordersOK (p : Portfolio) : Prop :=
  ∀ o ∈ p.openOrders, 0 ≤ o.quantity ∧ 0 ≤ o.targetPrice

/-! ### Basic lemmas about the holdings map and the open-order list -/

theorem getHolding_setHolding_self (hs : List (String × Holding)) (k : String)
    (v : Holding) : getHolding (setHolding hs k v) k = v := by
  induction hs with
  | nil => simp [getHolding, setHolding]
  | cons p rest ih =>
    by_cases h : p.1 = k
    · simp [getHolding, setHolding, h]
    · simpa [getHolding, setHolding, h] using ih

theorem getHolding_setHolding_ne (hs : List (String × Holding)) (k k' : String)
    (v : Holding) (h : k' ≠ k) :
    getHolding (setHolding hs k v) k' = getHolding hs k' := by
  have hkk' : ¬(k = k') := fun hh => h hh.symm
  induction hs with
  | nil => simp [getHolding, setHolding, hkk']
  | cons p rest ih =>
    by_cases hp : p.1 = k
    · have hp' : ¬(p.1 = k') := by rw [hp]; exact hkk'
      simp [getHolding, setHolding, hp, hp', hkk']
    · by_cases hp' : p.1 = k'
      · simp [getHolding, setHolding, hp, hp', h]
      · simpa [getHolding, setHolding, hp, hp'] using ih

theorem findOrder_append_single (l : List LimitOrder) (x : LimitOrder) (oid : ℕ)
    (h : ∀ o ∈ l, o.id ≠ oid) :
    findOrder (l ++ [x]) oid = if x.id = oid then some x else none := by
  induction l with
  | nil => simp [findOrder]
  | cons o rest ih =>
    have ho : o.id ≠ oid := h o (by simp)
    simp only [List.cons_append, findOrder, ho, if_neg ho]
    exact ih fun o' ho' => h o' (by simp [ho'])

theorem removeOrder_append_single (l : List LimitOrder) (x : LimitOrder) (oid : ℕ)
    (h : ∀ o ∈ l, o.id ≠ oid) (hx : x.id = oid) :
    removeOrder (l ++ [x]) oid = l := by
  induction l with
  | nil => simp [removeOrder, hx]
  | cons o rest ih =>
    have ho : o.id ≠ oid := h o (by simp)
    simp only [List.cons_append, removeOrder, if_neg ho]
    exact congrArg (fun l => o :: l) (ih fun o' ho' => h o' (by simp [ho']))

/-! ### Per-order characterisation of the matching loop body -/

theorem matchOrder_remaining (assets : List Asset) (now : ℕ) (st : MatchState)
    (o : LimitOrder) :
    (matchOrder assets now st o).remaining
      = st.remaining ++ if shouldExecute assets o then [] else [o] := by
  unfold matchOrder shouldExecute
  cases h : assets.find? (fun a => a.id = o.assetId) with
  | none => simp
  | some a =>
    by_cases h1 : o.type = Side.BUY ∧ a.current_price ≤ o.targetPrice
    · simp [h1]
    · by_cases h2 : o.type = Side.SELL ∧ o.targetPrice ≤ a.current_price
      · simp [h1, h2]
      · simp [h1, h2]

theorem matchOrder_changed (assets : List Asset) (now : ℕ) (st : MatchState)
    (o : LimitOrder) :
    (matchOrder assets now st o).portfolioChanged
      = (st.portfolioChanged || shouldExecute assets o) := by
  unfold matchOrder shouldExecute
  cases h : assets.find? (fun a => a.id = o.assetId) with
  | none => simp
  | some a =>
    by_cases h1 : o.type = Side.BUY ∧ a.current_price ≤ o.targetPrice
    · simp [h1]
    · by_cases h2 : o.type = Side.SELL ∧ o.targetPrice ≤ a.current_price
      · simp [h1, h2]
      · simp [h1, h2]

theorem matchOrder_noexec (assets : List Asset) (now : ℕ) (st : MatchState)
    (o : LimitOrder) (h : shouldExecute assets o = false) :
    matchOrder assets now st o = { st with remaining := st.remaining ++ [o] } := by
  unfold matchOrder
  unfold shouldExecute at h
  cases hf : assets.find? (fun a => a.id = o.assetId) with
  | none => simp
  | some a =>
    rw [hf] at h
    simp only [decide_eq_false_iff_not, not_or] at h
    simp [h.1, h.2]

theorem matchOrder_exec_buy (assets : List Asset) (now : ℕ) (st : MatchState)
    (o : LimitOrder) (a : Asset)
    (hfind : assets.find? (fun x => x.id = o.assetId) = some a)
    (hty : o.type = Side.BUY) (hle : a.current_price ≤ o.targetPrice) :
    matchOrder assets now st o =
      { portfolio := { st.portfolio with
          holdings := setHolding st.portfolio.holdings a.id
            ⟨(getHolding st.portfolio.holdings a.id).quantity + o.quantity,
              ((getHolding st.portfolio.holdings a.id).quantity *
                  (getHolding st.portfolio.holdings a.id).avgCost +
                o.quantity * o.targetPrice) /
                ((getHolding st.portfolio.holdings a.id).quantity + o.quantity)⟩
          transactions := st.portfolio.transactions ++
            [⟨st.nextId, o.type, a.id, a.name, o.quantity, o.targetPrice, now,
              OrderKind.LIMIT⟩] }
        remaining := st.remaining
        portfolioChanged := true
        nextId := st.nextId + 1 } := by
  unfold matchOrder
  rw [hfind]
  simp [hty, hle]

theorem matchOrder_exec_sell (assets : List Asset) (now : ℕ) (st : MatchState)
    (o : LimitOrder) (a : Asset)
    (hfind : assets.find? (fun x => x.id = o.assetId) = some a)
    (hty : o.type = Side.SELL) (hge : o.targetPrice ≤ a.current_price) :
    matchOrder assets now st o =
      { portfolio := { st.portfolio with
          cashBalance := st.portfolio.cashBalance + o.quantity * o.targetPrice
          transactions := st.portfolio.transactions ++
            [⟨st.nextId, o.type, a.id, a.name, o.quantity, o.targetPrice, now,
              OrderKind.LIMIT⟩] }
        remaining := st.remaining
        portfolioChanged := true
        nextId := st.nextId + 1 } := by
  unfold matchOrder
  rw [hfind]
  simp [hty, hge]

theorem matchOrder_transactions_mem (assets : List Asset) (now : ℕ)
    (st : MatchState) (o : LimitOrder) (t : Transaction)
    (ht : t ∈ (matchOrder assets now st o).portfolio.transactions) :
    t ∈ st.portfolio.transactions ∨
      (shouldExecute assets o = true ∧ t.quantity = o.quantity ∧
        t.price = o.targetPrice ∧ t.orderType = OrderKind.LIMIT) := by
  by_cases hex : shouldExecute assets o = true
  · unfold shouldExecute at hex
    cases hfind : assets.find? (fun x => x.id = o.assetId) with
    | none => rw [hfind] at hex; simp at hex
    | some a =>
      rw [hfind] at hex
      simp only [decide_eq_true_eq] at hex
      rcases hex with ⟨hty, hle⟩ | ⟨hty, hge⟩
      · rw [matchOrder_exec_buy assets now st o a hfind hty hle] at ht
        simp only [List.mem_append, List.mem_singleton] at ht
        rcases ht with ht | ht
        · exact Or.inl ht
        · subst ht
          refine Or.inr ⟨?_, rfl, rfl, rfl⟩
          unfold shouldExecute
          rw [hfind]
          simp [hty, hle]
      · rw [matchOrder_exec_sell assets now st o a hfind hty hge] at ht
        simp only [List.mem_append, List.mem_singleton] at ht
        rcases ht with ht | ht
        · exact Or.inl ht
        · subst ht
          refine Or.inr ⟨?_, rfl, rfl, rfl⟩
          unfold shouldExecute
          rw [hfind]
          simp [hty, hge]
  · rw [matchOrder_noexec assets now st o (by simpa using hex)] at ht
    exact Or.inl ht

theorem matchOrder_cash_le (assets : List Asset) (now : ℕ) (st : MatchState)
    (o : LimitOrder) (hq : 0 ≤ o.quantity) (hp : 0 ≤ o.targetPrice) :
    st.portfolio.cashBalance ≤ (matchOrder assets now st o).portfolio.cashBalance := by
  by_cases hex : shouldExecute assets o = true
  · unfold shouldExecute at hex
    cases hfind : assets.find? (fun x => x.id = o.assetId) with
    | none => rw [hfind] at hex; simp at hex
    | some a =>
      rw [hfind] at hex
      simp only [decide_eq_true_eq] at hex
      rcases hex with ⟨hty, hle⟩ | ⟨hty, hge⟩
      · rw [matchOrder_exec_buy assets now st o a hfind hty hle]
      · rw [matchOrder_exec_sell assets now st o a hfind hty hge]
        simpa using mul_nonneg hq hp
  · rw [matchOrder_noexec assets now st o (by simpa using hex)]

/-! ### The matching loop as a fold -/

theorem matchFold_remaining (assets : List Asset) (now : ℕ) (orders : List LimitOrder) :
    ∀ st : MatchState,
      (orders.foldl (matchOrder assets now) st).remaining
        = st.remaining ++ orders.filter (fun o => ! shouldExecute assets o) := by
  induction orders with
  | nil => intro st; simp
  | cons o rest ih =>
    intro st
    rw [List.foldl_cons, ih, matchOrder_remaining]
    cases h : shouldExecute assets o with
    | false => simp [h, List.filter_cons]
    | true => simp [h, List.filter_cons]

theorem matchFold_changed (assets : List Asset) (now : ℕ) (orders : List LimitOrder) :
    ∀ st : MatchState,
      (orders.foldl (matchOrder assets now) st).portfolioChanged
        = (st.portfolioChanged || orders.any (shouldExecute assets)) := by
  induction orders with
  | nil => intro st; simp
  | cons o rest ih =>
    intro st
    rw [List.foldl_cons, ih, matchOrder_changed, List.any_cons, Bool.or_assoc]

theorem matchFold_transactions_mem (assets : List Asset) (now : ℕ)
    (orders : List LimitOrder) :
    ∀ (st : MatchState) (t : Transaction),
      t ∈ (orders.foldl (matchOrder assets now) st).portfolio.transactions →
      t ∈ st.portfolio.transactions ∨
        ∃ o ∈ orders, shouldExecute assets o = true ∧ t.quantity = o.quantity ∧
          t.price = o.targetPrice ∧ t.orderType = OrderKind.LIMIT := by
  induction orders with
  | nil => intro st t ht; exact Or.inl ht
  | cons o rest ih =>
    intro st t ht
    rcases ih (matchOrder assets now st o) t ht with h | ⟨o', ho', hrest⟩
    · rcases matchOrder_transactions_mem assets now st o t h with h' | h'
      · exact Or.inl h'
      · exact Or.inr ⟨o, by simp, h'⟩
    · exact Or.inr ⟨o', by simp [ho'], hrest⟩

theorem matchFold_cash_le (assets : List Asset) (now : ℕ) (orders : List LimitOrder) :
    ∀ st : MatchState,
      (∀ o ∈ orders, 0 ≤ o.quantity ∧ 0 ≤ o.targetPrice) →
      st.portfolio.cashBalance
        ≤ (orders.foldl (matchOrder assets now) st).portfolio.cashBalance := by
  induction orders with
  | nil => intro st _; exact le_refl _
  | cons o rest ih =>
    intro st h
    have h1 := matchOrder_cash_le assets now st o (h o (by simp)).1 (h o (by simp)).2
    have h2 := ih (matchOrder assets now st o) fun o' ho' => h o' (by simp [ho'])
    exact le_trans h1 h2

/-! ### The matching pass (matchTick) -/

theorem matchTick_openOrders (assets : List Asset) (now nid : ℕ) (p : Portfolio) :
    ((matchTick true assets now nid p).1).openOrders
      = p.openOrders.filter (fun o => ! shouldExecute assets o) := by
  unfold matchTick
  by_cases he : p.openOrders = []
  · simp [he]
  · simp only [ne_eq, he, not_false_eq_true, and_true, true_and, if_true]
    by_cases hch :
        (p.openOrders.foldl (matchOrder assets now)
          ⟨p, [], false, nid⟩).portfolioChanged = true
    · rw [if_pos hch]
      simpa using matchFold_remaining assets now p.openOrders ⟨p, [], false, nid⟩
    · rw [if_neg hch]
      rw [matchFold_changed assets now p.openOrders ⟨p, [], false, nid⟩] at hch
      simp only [Bool.false_or] at hch
      have hany : p.openOrders.any (shouldExecute assets) = false := by
        cases hval : p.openOrders.any (shouldExecute assets)
        · rfl
        · exact absurd hval hch
      refine (List.filter_eq_self.mpr ?_).symm
      intro o ho
      have hno := List.any_eq_false.mp hany o ho
      simp [hno]

theorem matchTick_cash_le (user : Bool) (assets : List Asset) (now nid : ℕ)
    (p : Portfolio) (h : ∀ o ∈ p.openOrders, 0 ≤ o.quantity ∧ 0 ≤ o.targetPrice) :
    p.cashBalance ≤ ((matchTick user assets now nid p).1).cashBalance := by
  simp only [matchTick]
  split
  · split
    · exact matchFold_cash_le assets now p.openOrders ⟨p, [], false, nid⟩ h
    · exact le_refl _
  · exact le_refl _

theorem matchTick_transactions_mem (user : Bool) (assets : List Asset)
    (now nid : ℕ) (p : Portfolio) (t : Transaction)
    (ht : t ∈ ((matchTick user assets now nid p).1).transactions) :
    t ∈ p.transactions ∨
      ∃ o ∈ p.openOrders, shouldExecute assets o = true ∧ t.quantity = o.quantity ∧
        t.price = o.targetPrice ∧ t.orderType = OrderKind.LIMIT := by
  simp only [matchTick] at ht
  split at ht
  · split at ht
    · exact matchFold_transactions_mem assets now p.openOrders ⟨p, [], false, nid⟩ t ht
    · exact Or.inl ht
  · exact Or.inl ht

theorem matchTick_quiescent (user : Bool) (assets : List Asset) (now nid : ℕ)
    (p : Portfolio)
    (h : user = false ∨ p.openOrders = [] ∨
      ∀ o ∈ p.openOrders, shouldExecute assets o = false) :
    matchTick user assets now nid p = (p, false) := by
  unfold matchTick
  rcases h with h | h | h
  · rw [if_neg]
    rintro ⟨h1, -⟩
    rw [h] at h1
    exact Bool.false_ne_true h1
  · rw [if_neg]
    rintro ⟨-, h2⟩
    exact h2 h
  · by_cases hg : user = true ∧ p.openOrders ≠ []
    · rw [if_pos hg]
      have hch : (p.openOrders.foldl (matchOrder assets now)
          ⟨p, [], false, nid⟩).portfolioChanged = false := by
        rw [matchFold_changed assets now p.openOrders ⟨p, [], false, nid⟩]
        simp only [Bool.false_or]
        exact List.any_eq_false.mpr fun o ho => by simp [h o ho]
      simp only [hch]
      rfl
    · rw [if_neg hg]

theorem simTick_fst (user : Bool) (rand : String → ℚ) (vol : String → ℕ)
    (now nextId : ℕ) (assets : List Asset) (p : Portfolio) :
    (simTick user rand vol now nextId assets p).1
      = assets.map (fun a => advanceAsset (rand a.id) (vol a.id) now a) := by
  unfold simTick
  rfl

theorem simTick_portfolio (user : Bool) (rand : String → ℚ) (vol : String → ℕ)
    (now nextId : ℕ) (assets : List Asset) (p : Portfolio) :
    (simTick user rand vol now nextId assets p).2.1
      = (matchTick user
          (assets.map (fun a => advanceAsset (rand a.id) (vol a.id) now a))
          now nextId p).1 := by
  unfold simTick
  rfl

theorem simTick_wrote (user : Bool) (rand : String → ℚ) (vol : String → ℕ)
    (now nextId : ℕ) (assets : List Asset) (p : Portfolio) :
    (simTick user rand vol now nextId assets p).2.2
      = (matchTick user
          (assets.map (fun a => advanceAsset (rand a.id) (vol a.id) now a))
          now nextId p).2 := by
  unfold simTick
  rfl

/-! ### The claims -/

/-- C1: in a matching pass against the tick's freshly updated prices, a BUY
limit order executes iff the asset's new price is at most its target price, a
SELL executes iff the new price is at least its target price, an order whose
condition does not hold (or whose asset does not exist) remains in the open
set, and every transaction a pass appends settles an order's full quantity. -/
theorem limit_order_matching_rule (rand : String → ℚ) (vol : String → ℕ)
    (now nextId : ℕ) (assets : List Asset) (p : Portfolio) :
    ((simTick true rand vol now nextId assets p).2.1).openOrders
      = p.openOrders.filter
          (fun o => ! shouldExecute ((simTick true rand vol now nextId assets p).1) o)
    ∧ (∀ (o : LimitOrder) (a : Asset),
        ((simTick true rand vol now nextId assets p).1).find?
            (fun x => x.id = o.assetId) = some a →
          (shouldExecute ((simTick true rand vol now nextId assets p).1) o = true ↔
            ((o.type = Side.BUY ∧ a.current_price ≤ o.targetPrice) ∨
             (o.type = Side.SELL ∧ o.targetPrice ≤ a.current_price))))
    ∧ (∀ o : LimitOrder,
        ((simTick true rand vol now nextId assets p).1).find?
            (fun x => x.id = o.assetId) = none →
          shouldExecute ((simTick true rand vol now nextId assets p).1) o = false)
    ∧ (∀ t ∈ ((simTick true rand vol now nextId assets p).2.1).transactions,
        t ∈ p.transactions ∨
          ∃ o ∈ p.openOrders,
            shouldExecute ((simTick true rand vol now nextId assets p).1) o = true ∧
            t.quantity = o.quantity) := by
  rw [simTick_portfolio, simTick_fst]
  refine ⟨?_, ?_, ?_, ?_⟩
  · rw [matchTick_openOrders
      (assets.map (fun a => advanceAsset (rand a.id) (vol a.id) now a)) now nextId p]
  · intro o a hfind
    unfold shouldExecute
    rw [hfind]
    simp
  · intro o hfind
    unfold shouldExecute
    rw [hfind]
  · intro t ht
    rcases matchTick_transactions_mem true _ now nextId p t ht with h | ⟨o, ho, h1, h2, _⟩
    · exact Or.inl h
    · exact Or.inr ⟨o, ho, h1, h2⟩

/-- C10: a matching pass in which no open order satisfies its execution
condition (including an empty open-order set or no authenticated user) leaves
the portfolio value entirely unchanged and issues no persistence write; only
the assets advance. -/
theorem quiescent_matching_pass (user : Bool) (rand : String → ℚ)
    (vol : String → ℕ) (now nextId : ℕ) (assets : List Asset) (p : Portfolio)
    (h : user = false ∨ p.openOrders = [] ∨
      ∀ o ∈ p.openOrders,
        shouldExecute ((simTick user rand vol now nextId assets p).1) o = false) :
    (simTick user rand vol now nextId assets p).2.1 = p
    ∧ (simTick user rand vol now nextId assets p).2.2 = false
    ∧ (simTick user rand vol now nextId assets p).1
        = assets.map (fun a => advanceAsset (rand a.id) (vol a.id) now a) := by
  rw [simTick_fst] at h
  have hq : matchTick user
      (assets.map (fun a => advanceAsset (rand a.id) (vol a.id) now a)) now nextId p
      = (p, false) := matchTick_quiescent _ _ _ _ _ h
  refine ⟨?_, ?_, simTick_fst user rand vol now nextId assets p⟩
  · rw [simTick_portfolio, hq]
  · rw [simTick_wrote, hq]

/-- C10 witness: a pass over one open SELL order whose target price the tick
does not reach leaves the portfolio identical and writes nothing. -/
theorem quiescent_matching_pass_witness :
    ((true = false ∨
        (⟨100, [], [], [⟨1, "TOM", Side.SELL, 5, 1000, 0⟩]⟩ : Portfolio).openOrders = [] ∨
        ∀ o ∈ (⟨100, [], [], [⟨1, "TOM", Side.SELL, 5, 1000, 0⟩]⟩ : Portfolio).openOrders,
          shouldExecute ((simTick true (fun _ => 1/2) (fun _ => 3) 7 9
            [⟨"TOM", "Tomato", 10, [⟨0, 10, 1⟩], 0⟩]
            ⟨100, [], [], [⟨1, "TOM", Side.SELL, 5, 1000, 0⟩]⟩).1) o = false))
    ∧ (simTick true (fun _ => 1/2) (fun _ => 3) 7 9
        [⟨"TOM", "Tomato", 10, [⟨0, 10, 1⟩], 0⟩]
        ⟨100, [], [], [⟨1, "TOM", Side.SELL, 5, 1000, 0⟩]⟩).2.1
      = ⟨100, [], [], [⟨1, "TOM", Side.SELL, 5, 1000, 0⟩]⟩ := by
  have h : (true = false ∨
      (⟨100, [], [], [⟨1, "TOM", Side.SELL, 5, 1000, 0⟩]⟩ : Portfolio).openOrders = [] ∨
      ∀ o ∈ (⟨100, [], [], [⟨1, "TOM", Side.SELL, 5, 1000, 0⟩]⟩ : Portfolio).openOrders,
        shouldExecute ((simTick true (fun _ => 1/2) (fun _ => 3) 7 9
          [⟨"TOM", "Tomato", 10, [⟨0, 10, 1⟩], 0⟩]
          ⟨100, [], [], [⟨1, "TOM", Side.SELL, 5, 1000, 0⟩]⟩).1) o = false) := by
    refine Or.inr (Or.inr ?_)
    intro o ho
    simp only [List.mem_singleton] at ho
    subst ho
    simp only [simTick, advanceAsset, tickPoint, shouldExecute, volatility,
      List.map_cons, List.map_nil, List.find?]
    norm_num
    decide
  exact ⟨h, (quiescent_matching_pass true (fun _ => 1/2) (fun _ => 3) 7 9
    [⟨"TOM", "Tomato", 10, [⟨0, 10, 1⟩], 0⟩]
    ⟨100, [], [], [⟨1, "TOM", Side.SELL, 5, 1000, 0⟩]⟩ h).1⟩

/-- C8: one tick sets each asset's new price to `max(0.01, oldPrice * (1+δ))`
for a relative change δ in [-0.02, +0.02] (the `Math.random()` draw lies in
[0,1]), so every post-tick price is at least the floor 0.01, and afterwards
the asset's current price equals the price of the last entry of its history. -/
theorem price_random_walk (r : ℚ) (v now : ℕ) (a : Asset)
    (h0 : 0 ≤ r) (h1 : r ≤ 1) :
    (∃ δ : ℚ, -(2/100) ≤ δ ∧ δ ≤ 2/100 ∧
      (advanceAsset r v now a).current_price
        = max (1/100) (a.current_price * (1 + δ)))
    ∧ (1/100 : ℚ) ≤ (advanceAsset r v now a).current_price
    ∧ ((advanceAsset r v now a).history.getLast?).map PricePoint.price
        = some ((advanceAsset r v now a).current_price) := by
  refine ⟨⟨r * (volatility * 2) - volatility, ?_, ?_, ?_⟩, ?_, ?_⟩
  · unfold volatility
    have hm : 0 ≤ r * (2/100 * 2) := mul_nonneg h0 (by norm_num)
    linarith
  · unfold volatility
    have hm : r * (2/100 * 2) ≤ 1 * (2/100 * 2) :=
      mul_le_mul_of_nonneg_right h1 (by norm_num)
    linarith
  · simp only [advanceAsset, tickPoint]
    rw [max_def]
  · simp only [advanceAsset, tickPoint]
    split
    · next hle => exact hle
    · exact le_refl _
  · simp only [advanceAsset, tickPoint]
    rw [List.getLast?_concat]
    rfl

/-- C8 witness: a tick with random draw 1/2 on a concrete asset. -/
theorem price_random_walk_witness :
    (0 : ℚ) ≤ 1/2 ∧ (1/2 : ℚ) ≤ 1 ∧
    ((∃ δ : ℚ, -(2/100) ≤ δ ∧ δ ≤ 2/100 ∧
      (advanceAsset (1/2) 3 7 ⟨"TOM", "Tomato", 10, [⟨0, 10, 1⟩], 0⟩).current_price
        = max (1/100) ((⟨"TOM", "Tomato", 10, [⟨0, 10, 1⟩], 0⟩ : Asset).current_price * (1 + δ)))
    ∧ (1/100 : ℚ) ≤ (advanceAsset (1/2) 3 7 ⟨"TOM", "Tomato", 10, [⟨0, 10, 1⟩], 0⟩).current_price
    ∧ ((advanceAsset (1/2) 3 7 ⟨"TOM", "Tomato", 10, [⟨0, 10, 1⟩], 0⟩).history.getLast?).map
          PricePoint.price
        = some ((advanceAsset (1/2) 3 7 ⟨"TOM", "Tomato", 10, [⟨0, 10, 1⟩], 0⟩).current_price)) :=
  ⟨by norm_num, by norm_num,
    price_random_walk (1/2) 3 7 ⟨"TOM", "Tomato", 10, [⟨0, 10, 1⟩], 0⟩
      (by norm_num) (by norm_num)⟩

theorem appendedPoints_length (inputs : List (ℚ × ℕ × ℕ)) :
    ∀ a : Asset, (appendedPoints inputs a).length = inputs.length := by
  induction inputs with
  | nil => intro a; rfl
  | cons x rest ih =>
    intro a
    obtain ⟨r, v, t⟩ := x
    simp only [appendedPoints, List.length_cons, ih]

theorem advanceAsset_history_length (r : ℚ) (v t : ℕ) (a : Asset) :
    (advanceAsset r v t a).history.length = (a.history.length - 1) + 1 := by
  simp [advanceAsset]

theorem assetTicks_history (inputs : List (ℚ × ℕ × ℕ)) :
    ∀ a : Asset, 1 ≤ a.history.length →
      (assetTicks inputs a).history
        = (a.history ++ appendedPoints inputs a).drop inputs.length := by
  induction inputs with
  | nil => intro a _; simp [assetTicks, appendedPoints]
  | cons x rest ih =>
    obtain ⟨r, v, t⟩ := x
    intro a h
    have hstep : assetTicks ((r, v, t) :: rest) a
        = assetTicks rest (advanceAsset r v t a) := rfl
    have h' : 1 ≤ (advanceAsset r v t a).history.length := by
      rw [advanceAsset_history_length]
      omega
    rw [hstep, ih (advanceAsset r v t a) h']
    cases ha : a.history with
    | nil => rw [ha] at h; simp at h
    | cons y ys =>
      have hist : (advanceAsset r v t a).history
          = ys ++ [tickPoint r v t a] := by
        simp [advanceAsset, ha]
      have hap : appendedPoints ((r, v, t) :: rest) a
          = tickPoint r v t a :: appendedPoints rest (advanceAsset r v t a) := rfl
      rw [hap, hist]
      simp only [List.length_cons, List.cons_append, List.drop_succ_cons,
        List.append_assoc, List.singleton_append, List.nil_append]

/-- C9: each asset's price history never exceeds the configured capacity
N = 50: starting from a full history, every tick appends one point and evicts
the oldest, the length stays exactly 50, and after k >= 50 ticks exactly the
most recent 50 appended points remain, in oldest-first order. -/
theorem history_ring_buffer (inputs : List (ℚ × ℕ × ℕ)) (a : Asset)
    (h : a.history.length = HISTORY_POINTS) :
    (assetTicks inputs a).history.length = HISTORY_POINTS
    ∧ (assetTicks inputs a).history
        = (a.history ++ appendedPoints inputs a).drop inputs.length
    ∧ (HISTORY_POINTS ≤ inputs.length →
        (assetTicks inputs a).history
          = (appendedPoints inputs a).drop (inputs.length - HISTORY_POINTS))
    ∧ (∀ (times vols : ℕ → ℕ) (initialPrice : ℚ),
        (initialHistory times vols initialPrice).length = HISTORY_POINTS) := by
  have h1 : 1 ≤ a.history.length := by
    rw [h]
    norm_num [HISTORY_POINTS]
  have hmain := assetTicks_history inputs a h1
  refine ⟨?_, hmain, ?_, fun times vols initialPrice => by
    simp [initialHistory]⟩
  · rw [hmain, List.length_drop, List.length_append, appendedPoints_length, h]
    have : HISTORY_POINTS = 50 := rfl
    omega
  · intro hk
    rw [hmain]
    have hsplit : inputs.length = a.history.length + (inputs.length - HISTORY_POINTS) := by
      rw [h]
      omega
    calc List.drop inputs.length (a.history ++ appendedPoints inputs a)
        = List.drop (a.history.length + (inputs.length - HISTORY_POINTS))
            (a.history ++ appendedPoints inputs a) := by rw [← hsplit]
      _ = List.drop (inputs.length - HISTORY_POINTS) (appendedPoints inputs a) := by
            rw [List.drop_append]

/-- C9 witness: a concrete asset with a full 50-point history. -/
theorem history_ring_buffer_witness :
    ((⟨"TOM", "Tomato", 10, List.replicate 50 ⟨0, 10, 1⟩, 0⟩ : Asset).history.length
        = HISTORY_POINTS)
    ∧ (assetTicks [(1/2, 3, 7)]
        ⟨"TOM", "Tomato", 10, List.replicate 50 ⟨0, 10, 1⟩, 0⟩).history.length
        = HISTORY_POINTS := by
  have h : (⟨"TOM", "Tomato", 10, List.replicate 50 ⟨0, 10, 1⟩, 0⟩ : Asset).history.length
      = HISTORY_POINTS := by
    simp [HISTORY_POINTS]
  exact ⟨h, (history_ring_buffer [(1/2, 3, 7)]
    ⟨"TOM", "Tomato", 10, List.replicate 50 ⟨0, 10, 1⟩, 0⟩ h).1⟩

/-! ### Explicit forms of the four handleTrade branches -/

theorem handleTrade_buy_market (p : Portfolio) (aid an : String) (cp q : ℚ)
    (lp : Option ℚ) (fid now : ℕ) :
    handleTrade p aid an cp Side.BUY q OrderKind.MARKET lp fid now
      = if p.cashBalance < cp * q then Except.error TradeError.InsufficientFunds
        else Except.ok
          { cashBalance := p.cashBalance - cp * q
            holdings := setHolding p.holdings aid
              ⟨(getHolding p.holdings aid).quantity + q,
                ((getHolding p.holdings aid).quantity *
                    (getHolding p.holdings aid).avgCost + cp * q)
                  / ((getHolding p.holdings aid).quantity + q)⟩
            transactions := p.transactions ++
              [⟨fid, Side.BUY, aid, an, q, cp, now, OrderKind.MARKET⟩]
            openOrders := p.openOrders } := by
  unfold handleTrade tradePrice
  by_cases hc : p.cashBalance < cp * q
  · simp [hc]
  · simp [hc]

theorem handleTrade_buy_limit (p : Portfolio) (aid an : String) (cp q : ℚ)
    (lp : Option ℚ) (fid now : ℕ) :
    handleTrade p aid an cp Side.BUY q OrderKind.LIMIT lp fid now
      = if p.cashBalance < lp.getD 0 * q then
          Except.error TradeError.InsufficientFunds
        else Except.ok
          { cashBalance := p.cashBalance - lp.getD 0 * q
            holdings := p.holdings
            transactions := p.transactions
            openOrders := p.openOrders ++
              [⟨fid, aid, Side.BUY, q, lp.getD 0, now⟩] } := by
  unfold handleTrade tradePrice
  by_cases hc : p.cashBalance < lp.getD 0 * q
  · simp [hc]
  · simp [hc]

theorem handleTrade_sell_market (p : Portfolio) (aid an : String) (cp q : ℚ)
    (lp : Option ℚ) (fid now : ℕ) :
    handleTrade p aid an cp Side.SELL q OrderKind.MARKET lp fid now
      = if (getHolding p.holdings aid).quantity < q then
          Except.error TradeError.InsufficientHoldings
        else Except.ok
          { cashBalance := p.cashBalance + cp * q
            holdings := setHolding p.holdings aid
              ⟨(getHolding p.holdings aid).quantity - q,
                (getHolding p.holdings aid).avgCost⟩
            transactions := p.transactions ++
              [⟨fid, Side.SELL, aid, an, q, cp, now, OrderKind.MARKET⟩]
            openOrders := p.openOrders } := by
  unfold handleTrade tradePrice
  by_cases hc : (getHolding p.holdings aid).quantity < q
  · simp [hc]
  · simp [hc]

theorem handleTrade_sell_limit (p : Portfolio) (aid an : String) (cp q : ℚ)
    (lp : Option ℚ) (fid now : ℕ) :
    handleTrade p aid an cp Side.SELL q OrderKind.LIMIT lp fid now
      = if (getHolding p.holdings aid).quantity < q then
          Except.error TradeError.InsufficientHoldings
        else Except.ok
          { cashBalance := p.cashBalance
            holdings := setHolding p.holdings aid
              ⟨(getHolding p.holdings aid).quantity - q,
                (getHolding p.holdings aid).avgCost⟩
            transactions := p.transactions
            openOrders := p.openOrders ++
              [⟨fid, aid, Side.SELL, q, lp.getD 0, now⟩] } := by
  unfold handleTrade tradePrice
  by_cases hc : (getHolding p.holdings aid).quantity < q
  · simp [hc]
  · simp [hc]

/-- C2: a filled limit order is not retained in the open set and appends
exactly one new Transaction with orderType LIMIT, the order's full quantity
and price equal to the order's targetPrice (not the tick's market price); a
filled BUY changes only the holding (weighted-average join of
quantity*targetPrice, cash untouched — it was escrowed at placement), and a
filled SELL changes only cash (credited quantity*targetPrice, holdings
untouched — units were escrowed at placement). -/
theorem limit_fill_settlement (assets : List Asset) (now : ℕ) (st : MatchState)
    (o : LimitOrder) (a : Asset)
    (hfind : assets.find? (fun x => x.id = o.assetId) = some a) :
    (o.type = Side.BUY → a.current_price ≤ o.targetPrice →
      (matchOrder assets now st o).remaining = st.remaining
      ∧ (matchOrder assets now st o).portfolio.transactions
          = st.portfolio.transactions ++
            [⟨st.nextId, o.type, a.id, a.name, o.quantity, o.targetPrice, now,
              OrderKind.LIMIT⟩]
      ∧ (matchOrder assets now st o).portfolio.cashBalance
          = st.portfolio.cashBalance
      ∧ (matchOrder assets now st o).portfolio.openOrders
          = st.portfolio.openOrders
      ∧ (matchOrder assets now st o).portfolio.holdings
          = setHolding st.portfolio.holdings a.id
              ⟨(getHolding st.portfolio.holdings a.id).quantity + o.quantity,
                ((getHolding st.portfolio.holdings a.id).quantity *
                    (getHolding st.portfolio.holdings a.id).avgCost
                  + o.quantity * o.targetPrice)
                  / ((getHolding st.portfolio.holdings a.id).quantity + o.quantity)⟩)
    ∧ (o.type = Side.SELL → o.targetPrice ≤ a.current_price →
      (matchOrder assets now st o).remaining = st.remaining
      ∧ (matchOrder assets now st o).portfolio.transactions
          = st.portfolio.transactions ++
            [⟨st.nextId, o.type, a.id, a.name, o.quantity, o.targetPrice, now,
              OrderKind.LIMIT⟩]
      ∧ (matchOrder assets now st o).portfolio.cashBalance
          = st.portfolio.cashBalance + o.quantity * o.targetPrice
      ∧ (matchOrder assets now st o).portfolio.holdings
          = st.portfolio.holdings
      ∧ (matchOrder assets now st o).portfolio.openOrders
          = st.portfolio.openOrders) := by
  constructor
  · intro hty hle
    rw [matchOrder_exec_buy assets now st o a hfind hty hle]
    exact ⟨rfl, rfl, rfl, rfl, rfl⟩
  · intro hty hge
    rw [matchOrder_exec_sell assets now st o a hfind hty hge]
    exact ⟨rfl, rfl, rfl, rfl, rfl⟩

/-- C2 witness: a SELL limit order at target 11 fills against price 12,
crediting exactly quantity * targetPrice. -/
theorem limit_fill_settlement_witness :
    (([⟨"X", "Xa", 12, [], 0⟩] : List Asset).find?
        (fun x => x.id = (⟨5, "X", Side.SELL, 2, 11, 0⟩ : LimitOrder).assetId)
        = some ⟨"X", "Xa", 12, [], 0⟩)
    ∧ (matchOrder [⟨"X", "Xa", 12, [], 0⟩] 3 ⟨⟨100, [], [], []⟩, [], false, 9⟩
        ⟨5, "X", Side.SELL, 2, 11, 0⟩).portfolio.cashBalance
      = (⟨⟨100, [], [], []⟩, [], false, 9⟩ : MatchState).portfolio.cashBalance
        + 2 * 11 := by
  have hfind : ([⟨"X", "Xa", 12, [], 0⟩] : List Asset).find?
      (fun x => x.id = (⟨5, "X", Side.SELL, 2, 11, 0⟩ : LimitOrder).assetId)
      = some ⟨"X", "Xa", 12, [], 0⟩ := by
    simp [List.find?]
  refine ⟨hfind, ?_⟩
  exact ((limit_fill_settlement [⟨"X", "Xa", 12, [], 0⟩] 3
    ⟨⟨100, [], [], []⟩, [], false, 9⟩ ⟨5, "X", Side.SELL, 2, 11, 0⟩
    ⟨"X", "Xa", 12, [], 0⟩ hfind).2 rfl (by norm_num)).2.2.1

/-- C3: a BUY request (market or limit) fails with InsufficientFunds exactly
when cashBalance < quantity * price and otherwise debits cash by exactly that
amount; a SELL request fails with InsufficientHoldings exactly when the held
quantity is below the requested one and otherwise decrements the holding by
the quantity; a failed request returns the error and no new ledger. -/
theorem trade_request_checks (p : Portfolio) (assetId assetName : String)
    (currentPrice : ℚ) (orderType : OrderKind) (limitPrice : Option ℚ)
    (quantity : ℚ) (freshId now : ℕ) (hq : 0 < quantity) :
    ((handleTrade p assetId assetName currentPrice Side.BUY quantity orderType
        limitPrice freshId now = Except.error TradeError.InsufficientFunds)
      ↔ p.cashBalance < quantity * tradePrice orderType currentPrice limitPrice)
    ∧ (∀ p2, handleTrade p assetId assetName currentPrice Side.BUY quantity
        orderType limitPrice freshId now = Except.ok p2 →
        p2.cashBalance = p.cashBalance
          - quantity * tradePrice orderType currentPrice limitPrice)
    ∧ ((handleTrade p assetId assetName currentPrice Side.SELL quantity orderType
        limitPrice freshId now = Except.error TradeError.InsufficientHoldings)
      ↔ (getHolding p.holdings assetId).quantity < quantity)
    ∧ (∀ p2, handleTrade p assetId assetName currentPrice Side.SELL quantity
        orderType limitPrice freshId now = Except.ok p2 →
        (getHolding p2.holdings assetId).quantity
          = (getHolding p.holdings assetId).quantity - quantity) := by
  cases orderType with
  | MARKET =>
    refine ⟨?_, ?_, ?_, ?_⟩
    · rw [handleTrade_buy_market]
      by_cases hc : p.cashBalance < currentPrice * quantity
      · simp [hc, tradePrice, mul_comm]
      · simp [hc, tradePrice, mul_comm]
    · intro p2 hok
      rw [handleTrade_buy_market] at hok
      by_cases hc : p.cashBalance < currentPrice * quantity
      · rw [if_pos hc] at hok
        exact absurd hok (by simp)
      · rw [if_neg hc] at hok
        injection hok with h2
        rw [← h2]
        simp [tradePrice, mul_comm]
    · rw [handleTrade_sell_market]
      by_cases hc : (getHolding p.holdings assetId).quantity < quantity
      · simp [hc]
      · simp [hc]
    · intro p2 hok
      rw [handleTrade_sell_market] at hok
      by_cases hc : (getHolding p.holdings assetId).quantity < quantity
      · rw [if_pos hc] at hok
        exact absurd hok (by simp)
      · rw [if_neg hc] at hok
        injection hok with h2
        rw [← h2]
        simp [getHolding_setHolding_self]
  | LIMIT =>
    refine ⟨?_, ?_, ?_, ?_⟩
    · rw [handleTrade_buy_limit]
      by_cases hc : p.cashBalance < limitPrice.getD 0 * quantity
      · simp [hc, tradePrice, mul_comm]
      · simp [hc, tradePrice, mul_comm]
    · intro p2 hok
      rw [handleTrade_buy_limit] at hok
      by_cases hc : p.cashBalance < limitPrice.getD 0 * quantity
      · rw [if_pos hc] at hok
        exact absurd hok (by simp)
      · rw [if_neg hc] at hok
        injection hok with h2
        rw [← h2]
        simp [tradePrice, mul_comm]
    · rw [handleTrade_sell_limit]
      by_cases hc : (getHolding p.holdings assetId).quantity < quantity
      · simp [hc]
      · simp [hc]
    · intro p2 hok
      rw [handleTrade_sell_limit] at hok
      by_cases hc : (getHolding p.holdings assetId).quantity < quantity
      · rw [if_pos hc] at hok
        exact absurd hok (by simp)
      · rw [if_neg hc] at hok
        injection hok with h2
        rw [← h2]
        simp [getHolding_setHolding_self]

/-- C3 witness: buying 4 units at price 30 with only 100 in cash is rejected
with InsufficientFunds. -/
theorem trade_request_checks_witness :
    (0 : ℚ) < 4
    ∧ handleTrade ⟨100, [("X", ⟨5, 10⟩)], [], []⟩ "X" "Xa" 30 Side.BUY 4
        OrderKind.MARKET none 1 2 = Except.error TradeError.InsufficientFunds := by
  refine ⟨by norm_num, ?_⟩
  refine (trade_request_checks ⟨100, [("X", ⟨5, 10⟩)], [], []⟩ "X" "Xa" 30
    OrderKind.MARKET none 4 1 2 (by norm_num)).1.mpr ?_
  show (100 : ℚ) < 4 * tradePrice OrderKind.MARKET 30 none
  have ht : tradePrice OrderKind.MARKET 30 none = (30 : ℚ) := rfl
  rw [ht]
  norm_num

theorem handleCancelOrder_found_buy (p : Portfolio) (oid : ℕ) (order : LimitOrder)
    (hfo : findOrder p.openOrders oid = some order) (ht : order.type = Side.BUY) :
    handleCancelOrder p oid =
      { p with
        cashBalance := p.cashBalance + order.quantity * order.targetPrice
        openOrders := removeOrder p.openOrders oid } := by
  unfold handleCancelOrder
  rw [hfo]
  simp [ht]

theorem handleCancelOrder_found_sell (p : Portfolio) (oid : ℕ) (order : LimitOrder)
    (hfo : findOrder p.openOrders oid = some order) (ht : order.type = Side.SELL) :
    handleCancelOrder p oid =
      { p with
        holdings := setHolding p.holdings order.assetId
          ⟨(getHolding p.holdings order.assetId).quantity + order.quantity,
            (getHolding p.holdings order.assetId).avgCost⟩
        openOrders := removeOrder p.openOrders oid } := by
  unfold handleCancelOrder
  rw [hfo]
  have hne : ¬(order.type = Side.BUY) := by
    rw [ht]
    intro hcon
    exact Side.noConfusion hcon
  simp [hne]

/-- C4: placing a limit order (BUY or SELL) and immediately cancelling it
restores the cash balance and every holding's value exactly to their
pre-placement state, and removes the order, leaving openOrders as before:
the cancel refunds exactly what the placement escrowed. -/
theorem place_cancel_roundtrip (p : Portfolio) (assetId assetName : String)
    (currentPrice : ℚ) (type : Side) (quantity : ℚ) (limitPrice : Option ℚ)
    (freshId now : ℕ)
    (hfresh : ∀ o ∈ p.openOrders, o.id ≠ freshId) :
    ∀ p2, handleTrade p assetId assetName currentPrice type quantity
        OrderKind.LIMIT limitPrice freshId now = Except.ok p2 →
      (handleCancelOrder p2 freshId).cashBalance = p.cashBalance
      ∧ (∀ k, getHolding (handleCancelOrder p2 freshId).holdings k
          = getHolding p.holdings k)
      ∧ (handleCancelOrder p2 freshId).openOrders = p.openOrders := by
  intro p2 hok
  cases type with
  | BUY =>
    rw [handleTrade_buy_limit] at hok
    by_cases hc : p.cashBalance < limitPrice.getD 0 * quantity
    · rw [if_pos hc] at hok
      exact absurd hok (by simp)
    · rw [if_neg hc] at hok
      injection hok with h2
      subst h2
      have hfo : findOrder (p.openOrders ++
          [⟨freshId, assetId, Side.BUY, quantity, limitPrice.getD 0, now⟩]) freshId
          = some ⟨freshId, assetId, Side.BUY, quantity, limitPrice.getD 0, now⟩ := by
        rw [findOrder_append_single p.openOrders
          ⟨freshId, assetId, Side.BUY, quantity, limitPrice.getD 0, now⟩ freshId hfresh]
        exact if_pos rfl
      rw [handleCancelOrder_found_buy _ freshId
        ⟨freshId, assetId, Side.BUY, quantity, limitPrice.getD 0, now⟩ hfo rfl]
      refine ⟨by dsimp only; ring, fun k => rfl, ?_⟩
      show removeOrder (p.openOrders ++
        [⟨freshId, assetId, Side.BUY, quantity, limitPrice.getD 0, now⟩]) freshId
        = p.openOrders
      exact removeOrder_append_single p.openOrders
        ⟨freshId, assetId, Side.BUY, quantity, limitPrice.getD 0, now⟩ freshId hfresh rfl
  | SELL =>
    rw [handleTrade_sell_limit] at hok
    by_cases hc : (getHolding p.holdings assetId).quantity < quantity
    · rw [if_pos hc] at hok
      exact absurd hok (by simp)
    · rw [if_neg hc] at hok
      injection hok with h2
      subst h2
      have hfo : findOrder (p.openOrders ++
          [⟨freshId, assetId, Side.SELL, quantity, limitPrice.getD 0, now⟩]) freshId
          = some ⟨freshId, assetId, Side.SELL, quantity, limitPrice.getD 0, now⟩ := by
        rw [findOrder_append_single p.openOrders
          ⟨freshId, assetId, Side.SELL, quantity, limitPrice.getD 0, now⟩ freshId hfresh]
        exact if_pos rfl
      rw [handleCancelOrder_found_sell _ freshId
        ⟨freshId, assetId, Side.SELL, quantity, limitPrice.getD 0, now⟩ hfo rfl]
      refine ⟨rfl, ?_, ?_⟩
      · intro k
        by_cases hk : k = assetId
        · subst hk
          show getHolding (setHolding (setHolding p.holdings k
              ⟨(getHolding p.holdings k).quantity - quantity,
                (getHolding p.holdings k).avgCost⟩) k
              ⟨(getHolding (setHolding p.holdings k
                  ⟨(getHolding p.holdings k).quantity - quantity,
                    (getHolding p.holdings k).avgCost⟩) k).quantity + quantity,
                (getHolding (setHolding p.holdings k
                  ⟨(getHolding p.holdings k).quantity - quantity,
                    (getHolding p.holdings k).avgCost⟩) k).avgCost⟩) k
            = getHolding p.holdings k
          rw [getHolding_setHolding_self, getHolding_setHolding_self]
          have hcancel : (getHolding p.holdings k).quantity - quantity + quantity
              = (getHolding p.holdings k).quantity := by ring
          show (⟨(getHolding p.holdings k).quantity - quantity + quantity,
            (getHolding p.holdings k).avgCost⟩ : Holding) = getHolding p.holdings k
          rw [hcancel]
        · show getHolding (setHolding (setHolding p.holdings assetId
              ⟨(getHolding p.holdings assetId).quantity - quantity,
                (getHolding p.holdings assetId).avgCost⟩) assetId
              ⟨(getHolding (setHolding p.holdings assetId
                  ⟨(getHolding p.holdings assetId).quantity - quantity,
                    (getHolding p.holdings assetId).avgCost⟩) assetId).quantity + quantity,
                (getHolding (setHolding p.holdings assetId
                  ⟨(getHolding p.holdings assetId).quantity - quantity,
                    (getHolding p.holdings assetId).avgCost⟩) assetId).avgCost⟩) k
            = getHolding p.holdings k
          rw [getHolding_setHolding_ne _ _ _ _ hk, getHolding_setHolding_ne _ _ _ _ hk]
      · show removeOrder (p.openOrders ++
          [⟨freshId, assetId, Side.SELL, quantity, limitPrice.getD 0, now⟩]) freshId
          = p.openOrders
        exact removeOrder_append_single p.openOrders
          ⟨freshId, assetId, Side.SELL, quantity, limitPrice.getD 0, now⟩ freshId hfresh rfl

/-- C4 witness: place a limit BUY of 2 units at 10 from cash 100 and cancel;
the cash balance is exactly 100 again and no order remains. -/
theorem place_cancel_roundtrip_witness :
    (∀ o ∈ (⟨100, [], [], []⟩ : Portfolio).openOrders, o.id ≠ 5)
    ∧ (handleCancelOrder
        ⟨100 - 10 * 2, [], [], [⟨5, "X", Side.BUY, 2, 10, 0⟩]⟩ 5).cashBalance = 100
    ∧ (handleCancelOrder
        ⟨100 - 10 * 2, [], [], [⟨5, "X", Side.BUY, 2, 10, 0⟩]⟩ 5).openOrders = [] := by
  have hfresh : ∀ o ∈ (⟨100, [], [], []⟩ : Portfolio).openOrders, o.id ≠ 5 := by
    intro o ho
    simp [Portfolio.openOrders] at ho
  have hok : handleTrade ⟨100, [], [], []⟩ "X" "Xa" 7 Side.BUY 2 OrderKind.LIMIT
      (some 10) 5 0
      = Except.ok ⟨100 - 10 * 2, [], [], [⟨5, "X", Side.BUY, 2, 10, 0⟩]⟩ := by
    rw [handleTrade_buy_limit]
    norm_num
  have hres := place_cancel_roundtrip ⟨100, [], [], []⟩ "X" "Xa" 7 Side.BUY 2
    (some 10) 5 0 hfresh ⟨100 - 10 * 2, [], [], [⟨5, "X", Side.BUY, 2, 10, 0⟩]⟩ hok
  exact ⟨hfresh, hres.1, hres.2.2⟩

/-- C5: a market buy settles the holding at the quantity-weighted average
cost (oldQty*oldAvgCost + qty*price) / (oldQty + qty); when the held quantity
is 0 the new avgCost equals the purchase price regardless of any residual
avgCost; a market sell decrements the quantity and leaves avgCost unchanged. -/
theorem avg_cost_weighted (p : Portfolio) (assetId assetName : String)
    (price quantity : ℚ) (freshId now : ℕ) (hq : 0 < quantity) :
    (∀ p2, handleTrade p assetId assetName price Side.BUY quantity
        OrderKind.MARKET none freshId now = Except.ok p2 →
      getHolding p2.holdings assetId
        = ⟨(getHolding p.holdings assetId).quantity + quantity,
            ((getHolding p.holdings assetId).quantity *
                (getHolding p.holdings assetId).avgCost + quantity * price)
              / ((getHolding p.holdings assetId).quantity + quantity)⟩
      ∧ ((getHolding p.holdings assetId).quantity = 0 →
          (getHolding p2.holdings assetId).avgCost = price))
    ∧ (∀ p2, handleTrade p assetId assetName price Side.SELL quantity
        OrderKind.MARKET none freshId now = Except.ok p2 →
      (getHolding p2.holdings assetId).quantity
          = (getHolding p.holdings assetId).quantity - quantity
      ∧ (getHolding p2.holdings assetId).avgCost
          = (getHolding p.holdings assetId).avgCost) := by
  constructor
  · intro p2 hok
    rw [handleTrade_buy_market] at hok
    by_cases hc : p.cashBalance < price * quantity
    · rw [if_pos hc] at hok
      exact absurd hok (by simp)
    · rw [if_neg hc] at hok
      injection hok with h2
      subst h2
      constructor
      · rw [getHolding_setHolding_self]
        rw [mul_comm price quantity]
      · intro hzero
        rw [getHolding_setHolding_self]
        show ((getHolding p.holdings assetId).quantity *
            (getHolding p.holdings assetId).avgCost + price * quantity)
            / ((getHolding p.holdings assetId).quantity + quantity) = price
        rw [hzero]
        field_simp
  · intro p2 hok
    rw [handleTrade_sell_market] at hok
    by_cases hc : (getHolding p.holdings assetId).quantity < quantity
    · rw [if_pos hc] at hok
      exact absurd hok (by simp)
    · rw [if_neg hc] at hok
      injection hok with h2
      subst h2
      rw [getHolding_setHolding_self]
      exact ⟨rfl, rfl⟩

/-- C5 witness: a holding of 10 units at avgCost 10, a market buy of 10 more
at price 20: the holding becomes 20 units at avgCost 15. -/
theorem avg_cost_weighted_witness :
    (0 : ℚ) < 10
    ∧ (∃ p2, handleTrade ⟨1000, [("X", ⟨10, 10⟩)], [], []⟩ "X" "Xa" 20 Side.BUY
        10 OrderKind.MARKET none 1 2 = Except.ok p2
      ∧ getHolding p2.holdings "X" = ⟨20, 15⟩) := by
  refine ⟨by norm_num, ?_⟩
  have hok : handleTrade ⟨1000, [("X", ⟨10, 10⟩)], [], []⟩ "X" "Xa" 20 Side.BUY
      10 OrderKind.MARKET none 1 2
      = Except.ok
        { cashBalance := (1000 : ℚ) - 20 * 10
          holdings := setHolding [("X", ⟨10, 10⟩)] "X"
            ⟨(getHolding [("X", ⟨10, 10⟩)] "X").quantity + 10,
              ((getHolding [("X", ⟨10, 10⟩)] "X").quantity *
                  (getHolding [("X", ⟨10, 10⟩)] "X").avgCost + 20 * 10)
                / ((getHolding [("X", ⟨10, 10⟩)] "X").quantity + 10)⟩
          transactions := [] ++ [⟨1, Side.BUY, "X", "Xa", 10, 20, 2, OrderKind.MARKET⟩]
          openOrders := [] } := by
    rw [handleTrade_buy_market]
    rw [if_neg (by norm_num [getHolding])]
  refine ⟨_, hok, ?_⟩
  have h1 := ((avg_cost_weighted ⟨1000, [("X", ⟨10, 10⟩)], [], []⟩ "X" "Xa" 20 10
    1 2 (by norm_num)).1 _ hok).1
  rw [h1]
  have hget : getHolding [("X", ⟨10, 10⟩)] "X" = ⟨10, 10⟩ := by
    simp [getHolding]
  rw [hget]
  show (⟨(10 : ℚ) + 10, ((10 : ℚ) * 10 + 10 * 20) / (10 + 10)⟩ : Holding) = ⟨20, 15⟩
  norm_num

theorem findOrder_mem (l : List LimitOrder) (oid : ℕ) (o : LimitOrder)
    (h : findOrder l oid = some o) : o ∈ l := by
  induction l with
  | nil => simp [findOrder] at h
  | cons x rest ih =>
    by_cases hx : x.id = oid
    · rw [findOrder, if_pos hx] at h
      injection h with h
      simp [h]
    · rw [findOrder, if_neg hx] at h
      simp [ih h]

theorem removeOrder_mem (l : List LimitOrder) (oid : ℕ) (o : LimitOrder)
    (h : o ∈ removeOrder l oid) : o ∈ l := by
  induction l with
  | nil => simpa [removeOrder] using h
  | cons x rest ih =>
    by_cases hx : x.id = oid
    · rw [removeOrder, if_pos hx] at h
      simp [h]
    · rw [removeOrder, if_neg hx] at h
      rcases List.mem_cons.mp h with h' | h'
      · simp [h']
      · simp [ih h']

theorem applyOp_step (p : Portfolio) (op : Op) (h0 : 0 ≤ p.cashBalance)
    (hord : ordersOK p) (hv : validOp op) :
    0 ≤ (applyOp p op).cashBalance ∧ ordersOK (applyOp p op) := by
  cases op with
  | trade aid an cp ty q ot lp fid now =>
    obtain ⟨hq, hcp, hlp⟩ := hv
    have hlp0 : 0 ≤ lp.getD 0 := by
      cases lp with
      | none => exact le_refl 0
      | some v => exact hlp v rfl
    simp only [applyOp]
    cases ty with
    | BUY =>
      cases ot with
      | MARKET =>
        rw [handleTrade_buy_market]
        by_cases hc : p.cashBalance < cp * q
        · rw [if_pos hc]
          exact ⟨h0, hord⟩
        · rw [if_neg hc]
          refine ⟨?_, ?_⟩
          · show 0 ≤ p.cashBalance - cp * q
            linarith [not_lt.mp hc]
          · intro o ho
            exact hord o ho
      | LIMIT =>
        rw [handleTrade_buy_limit]
        by_cases hc : p.cashBalance < lp.getD 0 * q
        · rw [if_pos hc]
          exact ⟨h0, hord⟩
        · rw [if_neg hc]
          refine ⟨?_, ?_⟩
          · show 0 ≤ p.cashBalance - lp.getD 0 * q
            linarith [not_lt.mp hc]
          · intro o ho
            rcases List.mem_append.mp ho with h' | h'
            · exact hord o h'
            · rw [List.mem_singleton.mp h']
              exact ⟨hq, hlp0⟩
    | SELL =>
      cases ot with
      | MARKET =>
        rw [handleTrade_sell_market]
        by_cases hc : (getHolding p.holdings aid).quantity < q
        · rw [if_pos hc]
          exact ⟨h0, hord⟩
        · rw [if_neg hc]
          refine ⟨?_, ?_⟩
          · show 0 ≤ p.cashBalance + cp * q
            have := mul_nonneg hcp hq
            linarith
          · intro o ho
            exact hord o ho
      | LIMIT =>
        rw [handleTrade_sell_limit]
        by_cases hc : (getHolding p.holdings aid).quantity < q
        · rw [if_pos hc]
          exact ⟨h0, hord⟩
        · rw [if_neg hc]
          refine ⟨h0, ?_⟩
          intro o ho
          rcases List.mem_append.mp ho with h' | h'
          · exact hord o h'
          · rw [List.mem_singleton.mp h']
            exact ⟨hq, hlp0⟩
  | cancel oid =>
    simp only [applyOp]
    cases hfo : findOrder p.openOrders oid with
    | none =>
      unfold handleCancelOrder
      rw [hfo]
      exact ⟨h0, hord⟩
    | some order =>
      have hmem := findOrder_mem _ _ _ hfo
      obtain ⟨hoq, hop⟩ := hord order hmem
      by_cases ht : order.type = Side.BUY
      · rw [handleCancelOrder_found_buy _ _ _ hfo ht]
        refine ⟨?_, ?_⟩
        · show 0 ≤ p.cashBalance + order.quantity * order.targetPrice
          have := mul_nonneg hoq hop
          linarith
        · intro o ho
          exact hord o (removeOrder_mem _ _ _ ho)
      · have hts : order.type = Side.SELL := by
          cases horder : order.type with
          | BUY => exact absurd horder ht
          | SELL => rfl
        rw [handleCancelOrder_found_sell _ _ _ hfo hts]
        refine ⟨h0, ?_⟩
        intro o ho
        exact hord o (removeOrder_mem _ _ _ ho)
  | tick assets now nid =>
    simp only [applyOp]
    refine ⟨le_trans h0 (matchTick_cash_le true assets now nid p hord), ?_⟩
    intro o ho
    rw [matchTick_openOrders] at ho
    exact hord o (List.mem_of_mem_filter ho)

/-- C6: starting from a ledger with non-negative cash whose open orders carry
non-negative quantities and prices, any sequence of core operations (market
trade, limit placement, cancellation, matching pass with fills) reachable
through the validated request boundary keeps cashBalance non-negative. -/
theorem cash_never_negative (p : Portfolio) (ops : List Op)
    (h0 : 0 ≤ p.cashBalance) (hord : ordersOK p)
    (hv : ∀ op ∈ ops, validOp op) :
    0 ≤ (ops.foldl applyOp p).cashBalance := by
  induction ops generalizing p with
  | nil => exact h0
  | cons op rest ih =>
    rw [List.foldl_cons]
    obtain ⟨h0', hord'⟩ := applyOp_step p op h0 hord (hv op (by simp))
    exact ih (applyOp p op) h0' hord' fun op' ho' => hv op' (by simp [ho'])

/-- C6 witness: a market BUY of 2 units at price 10 from cash 100 keeps cash
non-negative. -/
theorem cash_never_negative_witness :
    ((0 : ℚ) ≤ (⟨100, [], [], []⟩ : Portfolio).cashBalance)
    ∧ ordersOK ⟨100, [], [], []⟩
    ∧ (∀ op ∈ [Op.trade "X" "Xa" 10 Side.BUY 2 OrderKind.MARKET none 1 2], validOp op)
    ∧ 0 ≤ ([Op.trade "X" "Xa" 10 Side.BUY 2 OrderKind.MARKET none 1 2].foldl applyOp
        ⟨100, [], [], []⟩).cashBalance := by
  have h0 : (0 : ℚ) ≤ (⟨100, [], [], []⟩ : Portfolio).cashBalance := by norm_num
  have hord : ordersOK (⟨100, [], [], []⟩ : Portfolio) := by
    intro o ho
    simp at ho
  have hv : ∀ op ∈ [Op.trade "X" "Xa" 10 Side.BUY 2 OrderKind.MARKET none 1 2],
      validOp op := by
    intro op hop
    rw [List.mem_singleton.mp hop]
    refine ⟨by norm_num, by norm_num, ?_⟩
    intro v hv'
    exact Option.noConfusion hv'
  exact ⟨h0, hord, hv, cash_never_negative _ _ h0 hord hv⟩

/-- C7: a trade request with non-positive quantity is rejected with
InvalidQuantity, and a limit-order request with positive quantity but
non-positive target price is rejected with InvalidPrice; in both cases the
request returns only the error, so the ledger is left unchanged, never
half-applied. -/
theorem request_validation (p : Portfolio) (assetId assetName : String)
    (currentPrice : ℚ) (mode : Side) (numericQty : ℤ) (orderType : OrderKind)
    (numericLimitPrice : ℚ) (freshId now : ℕ) :
    (numericQty ≤ 0 →
      submitTrade p assetId assetName currentPrice mode numericQty orderType
        numericLimitPrice freshId now = Except.error TradeError.InvalidQuantity)
    ∧ (0 < numericQty → orderType = OrderKind.LIMIT → numericLimitPrice ≤ 0 →
      submitTrade p assetId assetName currentPrice mode numericQty orderType
        numericLimitPrice freshId now = Except.error TradeError.InvalidPrice) := by
  constructor
  · intro hq
    unfold submitTrade
    rw [if_pos hq]
  · intro hq hot hp
    unfold submitTrade
    rw [if_neg (not_le.mpr hq), if_pos ⟨hot, hp⟩]

end VeggiTrade
